import Mathlib

/-!
Verification of the css-explore normalization and rendering engine
(css_explore.py).  The value-normalization regex pipeline, the node
model, the renderer and the format pipeline are embedded as executable
Lean functions over `List Char` / `String`, and the stated properties
of the engine are proved against this embedding.

Each `re.sub` call in the source is embedded as a left-to-right,
non-overlapping scanner over the character list, which is exactly the
semantics of Python's `re.sub` for the (backtracking-free) patterns the
source uses.
-/

namespace CssExplore

/-! ### Character classes

`pyIsSpace` embeds Python's `\s` for `str` patterns (ASCII whitespace
plus the Unicode whitespace code points), `isLineBreakChar` the set of
line boundaries recognized by `str.splitlines`, `isHexDigitChar` the
class `[0-9a-fA-F]`, and `isWordChar` Python's `\w` (used for the `\b`
word boundaries of the named-color patterns; ASCII portion). -/

def pyIsSpace (c : Char) : Bool :=
  c.toNat = 32 || (9 ≤ c.toNat && c.toNat ≤ 13) ||
  (28 ≤ c.toNat && c.toNat ≤ 31) || c.toNat = 0x85 || c.toNat = 0xa0 ||
  c.toNat = 0x1680 || (0x2000 ≤ c.toNat && c.toNat ≤ 0x200a) ||
  c.toNat = 0x2028 || c.toNat = 0x2029 || c.toNat = 0x202f ||
  c.toNat = 0x205f || c.toNat = 0x3000

def isLineBreakChar (c : Char) : Bool :=
  c.toNat = 10 || c.toNat = 13 || c.toNat = 11 || c.toNat = 12 ||
  c.toNat = 28 || c.toNat = 29 || c.toNat = 30 || c.toNat = 0x85 ||
  c.toNat = 0x2028 || c.toNat = 0x2029

def isHexDigitChar (c : Char) : Bool :=
  (48 ≤ c.toNat && c.toNat ≤ 57) ||
  (97 ≤ c.toNat && c.toNat ≤ 102) ||
  (65 ≤ c.toNat && c.toNat ≤ 70)

def isWordChar (c : Char) : Bool :=
  (48 ≤ c.toNat && c.toNat ≤ 57) ||
  (97 ≤ c.toNat && c.toNat ≤ 122) ||
  (65 ≤ c.toNat && c.toNat ≤ 90) || c.toNat = 95

def isDigitChar (c : Char) : Bool :=
  48 ≤ c.toNat && c.toNat ≤ 57

/-! ### Generic list helpers -/

theorem length_dropWhile_le (p : Char → Bool) (l : List Char) :
    (l.dropWhile p).length ≤ l.length :=
  (List.dropWhile_sublist p).length_le

/-- Python `str.rstrip()` (with respect to `\s`). -/
def rstripList (l : List Char) : List Char :=
  (l.reverse.dropWhile pyIsSpace).reverse

/-- Python `value.replace(old, new)`: replace every (leftmost,
non-overlapping) occurrence of `old` by `new`.  The source only ever
calls this with a nonempty `old` (a regex match). -/
def replaceAllList (old new : List Char) : List Char → List Char
  | [] => []
  | c :: rest =>
    if old ≠ [] ∧ (c :: rest).take old.length = old then
      new ++ replaceAllList old new ((c :: rest).drop old.length)
    else
      c :: replaceAllList old new rest
termination_by l => l.length
decreasing_by
  · rename_i h
    have hlen : 1 ≤ old.length := by
      cases old with
      | nil => exact absurd rfl h.1
      | cons x xs => simp
    simp only [List.length_drop, List.length_cons]
    omega
  · simp only [List.length_cons]
    omega

/-- Python `''.join` on a list of strings. -/
def strJoin : List String → String
  | [] => ""
  | s :: ss => s ++ strJoin ss

/-- Python `str.splitlines()`: split at line boundaries, treating
`\r\n` as a single boundary; a trailing boundary does not produce an
extra empty line. -/
def splitlinesList : List Char → List (List Char)
  | [] => []
  | c :: cs =>
    if isLineBreakChar c then
      [] :: splitlinesList (if c = '\r' ∧ cs.head? = some '\n' then cs.tail else cs)
    else
      match splitlinesList cs with
      | [] => [[c]]
      | l :: ls => (c :: l) :: ls
termination_by l => l.length
decreasing_by
  · simp only [List.length_cons]
    split
    · simp only [List.length_tail]
      omega
    · omega
  · simp only [List.length_cons]
    omega

/-- Python `'\n'.join`. -/
def joinWithNl : List (List Char) → List Char
  | [] => []
  | [l] => l
  | l :: ls => l ++ ('\n' :: joinWithNl ls)

/-- `indent(text)` from the source: prefix every line of `text` with
four spaces, join the lines with newlines, and append a final
newline. -/
def indent (text : String) : String :=
  ⟨joinWithNl ((splitlinesList text.data).map
    (fun line => ' ' :: ' ' :: ' ' :: ' ' :: line)) ++ ['\n']⟩

/-! ### The regex substitutions of the value normalizer

Each `FOO_RE.sub(FOO_RE_SUB, value)` call of the source is embedded as
a scanner named `fooSubList` working on `value`'s character list. -/

/-- `COLOR_RE.sub(COLOR_RE_SUB, value)` with
`COLOR_RE = #(H)\1(H)\2(H)\3` and `COLOR_RE_SUB = #\1\2\3`:
shorten a doubled-digit six-hex-digit color to its three-digit form. -/
def colorSubList : List Char → List Char
  | '#' :: a :: a' :: b :: b' :: c :: c' :: rest =>
    if isHexDigitChar a ∧ a' = a ∧ isHexDigitChar b ∧ b' = b ∧
        isHexDigitChar c ∧ c' = c then
      '#' :: a :: b :: c :: colorSubList rest
    else
      '#' :: colorSubList (a :: a' :: b :: b' :: c :: c' :: rest)
  | c :: rest => c :: colorSubList rest
  | [] => []

/-- `COMMA_RE.sub(COMMA_RE_SUB, value)` with `COMMA_RE = (,\s*)` and
`COMMA_RE_SUB = ', '`: a comma plus any following whitespace becomes
comma-space. -/
def commaSubList : List Char → List Char
  | [] => []
  | c :: rest =>
    if c = ',' then ',' :: ' ' :: commaSubList (rest.dropWhile pyIsSpace)
    else c :: commaSubList rest
termination_by l => l.length
decreasing_by
  · have h := length_dropWhile_le pyIsSpace rest
    simp only [List.length_cons]
    omega
  · simp only [List.length_cons]
    omega

/-- `FLOAT_RE.sub(FLOAT_RE_SUB, value)` with
`FLOAT_RE = (?<!\d)(\.\d+)` and `FLOAT_RE_SUB = 0\1`: prefix `0` to a
decimal fraction not preceded by a digit.  `prevDigit` carries the
lookbehind state (whether the character before the scan position is a
digit); at the start of the string the lookbehind succeeds. -/
def floatSubAux (prevDigit : Bool) : List Char → List Char
  | '.' :: c :: rest =>
    if prevDigit = false ∧ isDigitChar c then
      '0' :: '.' :: c :: ((rest.takeWhile isDigitChar) ++
        floatSubAux true (rest.dropWhile isDigitChar))
    else
      '.' :: floatSubAux false (c :: rest)
  | c :: rest => c :: floatSubAux (isDigitChar c) rest
  | [] => []
termination_by l => l.length
decreasing_by
  · have h := length_dropWhile_le isDigitChar rest
    simp only [List.length_cons]
    omega
  · simp only [List.length_cons]
    omega
  · simp only [List.length_cons]
    omega

def floatSubList (l : List Char) : List Char := floatSubAux false l

/-- `POINT_ZERO_RE.sub(POINT_ZERO_SUB, value)` with
`POINT_ZERO_RE = (\d)\.0+px` and `POINT_ZERO_SUB = \1px`: collapse
`<digit>.<one or more zeros>px` to `<digit>px`. -/
def pointZeroSubList : List Char → List Char
  | [] => []
  | d :: '.' :: rest =>
    if isDigitChar d ∧ rest.takeWhile (fun c => c = '0') ≠ [] ∧
        (rest.dropWhile (fun c => c = '0')).take 2 = ['p', 'x'] then
      d :: 'p' :: 'x' :: pointZeroSubList ((rest.dropWhile (fun c => c = '0')).drop 2)
    else
      d :: pointZeroSubList ('.' :: rest)
  | c :: rest => c :: pointZeroSubList rest
termination_by l => l.length
decreasing_by
  · have h := length_dropWhile_le (fun c => c = '0') rest
    simp only [List.length_drop, List.length_cons]
    omega
  · simp only [List.length_cons]
    omega
  · simp only [List.length_cons]
    omega

/-- One attempted match of the tail `([^'"]*)"` of `QUOTE_RE` against
`rest` (the input after an opening `"`): greedily take quote-free
content and require a closing `"`; returns the content and the input
after the closing quote. -/
def tryQuote (rest : List Char) : Option (List Char × List Char) :=
  match rest.dropWhile (fun x => !(x = '\'' || x = '"')) with
  | '"' :: rest' => some (rest.takeWhile (fun x => !(x = '\'' || x = '"')), rest')
  | _ => none

theorem tryQuote_length {rest : List Char} {p : List Char × List Char}
    (h : tryQuote rest = some p) : p.2.length < rest.length := by
  rw [tryQuote.eq_def] at h
  split at h
  · rename_i rest' heq
    have h1 := length_dropWhile_le (fun x => !(x = '\'' || x = '"')) rest
    rw [heq] at h1
    simp only [Option.some.injEq] at h
    subst h
    simp only [List.length_cons] at h1
    show rest'.length < rest.length
    omega
  · exact Option.noConfusion h

/-- `QUOTE_RE.sub(QUOTE_RE_SUB, value)` with `QUOTE_RE = "([^'"]*)"`
and `QUOTE_RE_SUB = '\1'`: a double-quoted string containing no
embedded quote of either kind becomes single-quoted. -/
def quoteSubList : List Char → List Char
  | [] => []
  | c :: rest =>
    if c = '"' then
      if h : (tryQuote rest).isSome then
        '\'' :: ((((tryQuote rest).get h).1) ++
          ('\'' :: quoteSubList (((tryQuote rest).get h).2)))
      else '"' :: quoteSubList rest
    else c :: quoteSubList rest
termination_by l => l.length
decreasing_by
  · have hlt := tryQuote_length (Option.some_get h).symm
    simp only [List.length_cons]
    omega
  · simp only [List.length_cons]
    omega
  · simp only [List.length_cons]
    omega

/-- The permissive numeric group `NUM = (\d*(?:\.\d*)?)` of `RGBA_RE`:
greedily take digits, then optionally a point and more digits.
Returns the matched text (possibly empty) and the remaining input. -/
def parseNum (l : List Char) : List Char × List Char :=
  match l.dropWhile isDigitChar with
  | '.' :: r2 =>
    ((l.takeWhile isDigitChar) ++ ('.' :: r2.takeWhile isDigitChar),
      r2.dropWhile isDigitChar)
  | _ => (l.takeWhile isDigitChar, l.dropWhile isDigitChar)

/-- The `,\s*` separator inside `RGBA_RE`. -/
def parseCommaSpace : List Char → Option (List Char)
  | ',' :: r => some (r.dropWhile pyIsSpace)
  | _ => none

/-- One attempted match of
`RGBA_RE = rgba\(NUM,\s*NUM,\s*NUM,\s*NUM\)` at the head of `l`,
returning the replacement text `rgba(\1, \2, \3, \4)` and the input
after the match. -/
def tryRgba : List Char → Option (List Char × List Char)
  | 'r' :: 'g' :: 'b' :: 'a' :: '(' :: r =>
    match parseCommaSpace (parseNum r).2 with
    | none => none
    | some r1' =>
      match parseCommaSpace (parseNum r1').2 with
      | none => none
      | some r2' =>
        match parseCommaSpace (parseNum r2').2 with
        | none => none
        | some r3' =>
          match (parseNum r3').2 with
          | ')' :: rest =>
            some ((('r' :: 'g' :: 'b' :: 'a' :: '(' :: (parseNum r).1) ++
              (',' :: ' ' :: (parseNum r1').1) ++
              (',' :: ' ' :: (parseNum r2').1) ++
              (',' :: ' ' :: (parseNum r3').1) ++ [')'], rest))
          | _ => none
  | _ => none

theorem parseNum_snd_length (l : List Char) : (parseNum l).2.length ≤ l.length := by
  rw [parseNum]
  have hd := length_dropWhile_le isDigitChar l
  split
  · rename_i r2 h
    have h2 := length_dropWhile_le isDigitChar r2
    rw [h] at hd
    simp only [List.length_cons] at hd
    show (r2.dropWhile isDigitChar).length ≤ l.length
    omega
  · exact hd

theorem parseCommaSpace_length {l r : List Char} (h : parseCommaSpace l = some r) :
    r.length < l.length := by
  match l with
  | [] => simp [parseCommaSpace] at h
  | ',' :: r0 =>
    simp only [parseCommaSpace, Option.some.injEq] at h
    have := length_dropWhile_le pyIsSpace r0
    subst h
    simp only [List.length_cons]
    omega
  | c :: r0 =>
    rw [parseCommaSpace.eq_def] at h
    split at h
    · rename_i heq
      cases heq
      have := length_dropWhile_le pyIsSpace r0
      cases h
      simp only [List.length_cons]
      omega
    · cases h

theorem tryRgba_some_length {l : List Char} {p : List Char × List Char}
    (h : tryRgba l = some p) : p.2.length < l.length := by
  rw [tryRgba.eq_def] at h
  split at h
  · rename_i r
    split at h
    · exact Option.noConfusion h
    · rename_i r1' hc1
      split at h
      · exact Option.noConfusion h
      · rename_i r2' hc2
        split at h
        · exact Option.noConfusion h
        · rename_i r3' hc3
          split at h
          · rename_i rest0 hr4
            simp only [Option.some.injEq] at h
            subst h
            have a1 := parseNum_snd_length r
            have a2 := parseCommaSpace_length hc1
            have a3 := parseNum_snd_length r1'
            have a4 := parseCommaSpace_length hc2
            have a5 := parseNum_snd_length r2'
            have a6 := parseCommaSpace_length hc3
            have a7 := parseNum_snd_length r3'
            rw [hr4] at a7
            simp only [List.length_cons] at a7 ⊢
            omega
          · exact Option.noConfusion h
  · exact Option.noConfusion h

/-- `RGBA_RE.sub(RGBA_RE_SUB, value)`. -/
def rgbaSubList : List Char → List Char
  | [] => []
  | c :: rest =>
    if h : (tryRgba (c :: rest)).isSome then
      (((tryRgba (c :: rest)).get h).1) ++ rgbaSubList (((tryRgba (c :: rest)).get h).2)
    else c :: rgbaSubList rest
termination_by l => l.length
decreasing_by
  · exact tryRgba_some_length (Option.some_get h).symm
  · simp only [List.length_cons]
    omega

/-- The right word boundary `\b` after a word: succeeds at the end of
the input or before a non-word character. -/
def boundaryAfter : List Char → Bool
  | [] => true
  | c :: _ => !isWordChar c

/-- `re.sub(r'\bblack\b', '#000', value)`: whole-word `black` becomes
`#000`.  `prevWord` carries whether the character before the scan
position is a word character (the left `\b`); after a replacement the
scan continues after the match, whose last character `k` is a word
character. -/
def blackSubAux : Bool → List Char → List Char
  | _, [] => []
  | prevWord, 'b' :: 'l' :: 'a' :: 'c' :: 'k' :: rest =>
    if prevWord = false ∧ boundaryAfter rest = true then
      '#' :: '0' :: '0' :: '0' :: blackSubAux true rest
    else
      'b' :: blackSubAux true ('l' :: 'a' :: 'c' :: 'k' :: rest)
  | _, c :: rest => c :: blackSubAux (isWordChar c) rest

def blackSubList (l : List Char) : List Char := blackSubAux false l

/-- `re.sub(r'\bwhite\b', '#fff', value)`: whole-word `white` becomes
`#fff`. -/
def whiteSubAux : Bool → List Char → List Char
  | _, [] => []
  | prevWord, 'w' :: 'h' :: 'i' :: 't' :: 'e' :: rest =>
    if prevWord = false ∧ boundaryAfter rest = true then
      '#' :: 'f' :: 'f' :: 'f' :: whiteSubAux true rest
    else
      'w' :: whiteSubAux true ('h' :: 'i' :: 't' :: 'e' :: rest)
  | _, c :: rest => c :: whiteSubAux (isWordChar c) rest

def whiteSubList (l : List Char) : List Char := whiteSubAux false l

/-- One attempted match of `SLASH_RE = \s*/\s*` at the head of `l`:
greedily skip whitespace, require a `/`, greedily skip whitespace;
returns the input after the match. -/
def trySlash (l : List Char) : Option (List Char) :=
  match l.dropWhile pyIsSpace with
  | '/' :: r2 => some (r2.dropWhile pyIsSpace)
  | _ => none

theorem trySlash_length {l r : List Char} (h : trySlash l = some r) (hne : l ≠ []) :
    r.length < l.length := by
  rw [trySlash.eq_def] at h
  split at h
  · rename_i r2 heq
    have h1 := length_dropWhile_le pyIsSpace l
    rw [heq] at h1
    have h2 := length_dropWhile_le pyIsSpace r2
    simp only [Option.some.injEq] at h
    subst h
    simp only [List.length_cons] at h1
    cases l with
    | nil => exact absurd rfl hne
    | cons a as =>
      simp only [List.length_cons] at h1 ⊢
      omega
  · exact Option.noConfusion h

/-- `SLASH_RE.sub(SLASH_RE_SUB, value)` with `SLASH_RE = \s*/\s*` and
`SLASH_RE_SUB = ' / '`: a slash together with any surrounding
whitespace becomes space-slash-space. -/
def slashSubList : List Char → List Char
  | [] => []
  | c :: rest =>
    if h : (trySlash (c :: rest)).isSome then
      ' ' :: '/' :: ' ' :: slashSubList ((trySlash (c :: rest)).get h)
    else c :: slashSubList rest
termination_by l => l.length
decreasing_by
  · exact trySlash_length (Option.some_get h).symm (by simp)
  · simp only [List.length_cons]
    omega

/-- One attempted match of `RELATION_RE = \s*([+>])\s*` at the head of
`l`: returns the captured combinator and the input after the match. -/
def tryRelation (l : List Char) : Option (Char × List Char) :=
  match l.dropWhile pyIsSpace with
  | d :: r2 =>
    if d = '+' ∨ d = '>' then some (d, r2.dropWhile pyIsSpace) else none
  | [] => none

theorem tryRelation_length {l : List Char} {p : Char × List Char}
    (h : tryRelation l = some p) (hne : l ≠ []) : p.2.length < l.length := by
  rw [tryRelation.eq_def] at h
  split at h
  · rename_i d r2 heq
    split at h
    · have h1 := length_dropWhile_le pyIsSpace l
      rw [heq] at h1
      have h2 := length_dropWhile_le pyIsSpace r2
      simp only [Option.some.injEq] at h
      subst h
      simp only [List.length_cons] at h1
      cases l with
      | nil => exact absurd rfl hne
      | cons a as =>
        simp only [List.length_cons] at h1 ⊢
        omega
    · exact Option.noConfusion h
  · exact Option.noConfusion h

/-- `RELATION_RE.sub(RELATION_RE_SUB, selector)` with
`RELATION_RE = \s*([+>])\s*` and `RELATION_RE_SUB = ' \1 '`: a `+` or
`>` combinator together with any surrounding whitespace is re-spaced
to one space on each side. -/
def relationSubList : List Char → List Char
  | [] => []
  | c :: rest =>
    if h : (tryRelation (c :: rest)).isSome then
      ' ' :: (((tryRelation (c :: rest)).get h).1) :: ' ' ::
        relationSubList (((tryRelation (c :: rest)).get h).2)
    else c :: relationSubList rest
termination_by l => l.length
decreasing_by
  · exact tryRelation_length (Option.some_get h).symm (by simp)
  · simp only [List.length_cons]
    omega

/-- `SPACES_RE.sub(SPACES_RE_SUB, value)` with `SPACES_RE = [ ]+` and
`SPACES_RE_SUB = ' '`: a run of ASCII spaces becomes one space. -/
def spacesSubList : List Char → List Char
  | [] => []
  | c :: rest =>
    if c = ' ' then ' ' :: spacesSubList (rest.dropWhile (fun x => x = ' '))
    else c :: spacesSubList rest
termination_by l => l.length
decreasing_by
  · have h := length_dropWhile_le (fun x => x = ' ') rest
    simp only [List.length_cons]
    omega
  · simp only [List.length_cons]
    omega

/-! ### Unicode escape resolution -/

/-- `UNICODE_ESC_RE.findall(value)` with
`UNICODE_ESC_RE = \\[A-Fa-f0-9]{4}\s*`: all (leftmost,
non-overlapping) matches, in order. -/
def findEscapesList : List Char → List (List Char)
  | '\\' :: a :: b :: c :: d :: rest =>
    if isHexDigitChar a ∧ isHexDigitChar b ∧ isHexDigitChar c ∧ isHexDigitChar d then
      ('\\' :: a :: b :: c :: d :: rest.takeWhile pyIsSpace) ::
        findEscapesList (rest.dropWhile pyIsSpace)
    else
      findEscapesList (a :: b :: c :: d :: rest)
  | _ :: rest => findEscapesList rest
  | [] => []
termination_by l => l.length
decreasing_by
  · have h := length_dropWhile_le pyIsSpace rest
    simp only [List.length_cons]
    omega
  · simp only [List.length_cons]
    omega
  · simp only [List.length_cons]
    omega

def hexDigitVal (c : Char) : Nat :=
  if 48 ≤ c.toNat ∧ c.toNat ≤ 57 then c.toNat - 48
  else if 97 ≤ c.toNat ∧ c.toNat ≤ 102 then c.toNat - 87
  else if 65 ≤ c.toNat ∧ c.toNat ≤ 70 then c.toNat - 55
  else 0

/-- `int(s, 16)` on a hex-digit string. -/
def hexListToNat (l : List Char) : Nat :=
  l.foldl (fun acc c => 16 * acc + hexDigitVal c) 0

/-- `chr(int(match[1:].rstrip(), 16))` for a match of
`UNICODE_ESC_RE`.  (`Char.ofNat` yields the null character on the
surrogate code points, which Python's `chr` accepts; no CSS escape of
interest denotes a surrogate.) -/
def escCharOf (m : List Char) : Char :=
  Char.ofNat (hexListToNat (rstripList (m.drop 1)))

/-- `norm_unicode_escapes(value)` from the source: find all escape
matches, then for each match replace every occurrence of the matched
text by the character it denotes. -/
def norm_unicode_escapes (value : String) : String :=
  ⟨(findEscapesList value.data).foldl
    (fun v m => replaceAllList m [escCharOf m] v) value.data⟩

/-! ### String-level wrappers for the substitutions -/

def COLOR_RE_sub (s : String) : String := ⟨colorSubList s.data⟩

def COMMA_RE_sub (s : String) : String := ⟨commaSubList s.data⟩

def FLOAT_RE_sub (s : String) : String := ⟨floatSubList s.data⟩

def POINT_ZERO_sub (s : String) : String := ⟨pointZeroSubList s.data⟩

def QUOTE_RE_sub (s : String) : String := ⟨quoteSubList s.data⟩

def RGBA_RE_sub (s : String) : String := ⟨rgbaSubList s.data⟩

/-- The `COLORS_TO_SHORT_COLORS` loop of `Property.from_dict`:
whole-word `black` to `#000`, then whole-word `white` to `#fff`. -/
def shortColors_sub (s : String) : String :=
  ⟨whiteSubList (blackSubList s.data)⟩

def SLASH_RE_sub (s : String) : String := ⟨slashSubList s.data⟩

def SPACES_RE_sub (s : String) : String := ⟨spacesSubList s.data⟩

def RELATION_RE_sub (s : String) : String := ⟨relationSubList s.data⟩

/-! ### Python `sorted` on strings

Python compares strings lexicographically by code point.  `listLe` is
that order on character lists as a boolean; `pySorted` is a sort with
respect to it (any correct sort computes Python's `sorted` output,
since the sorted permutation of a list is unique for a total,
transitive, antisymmetric order). -/

def listLe : List Char → List Char → Bool
  | [], _ => true
  | _ :: _, [] => false
  | a :: as, b :: bs =>
    if a.toNat < b.toNat then true
    else if b.toNat < a.toNat then false
    else listLe as bs

def strLe (a b : String) : Bool := listLe a.data b.data

def strLeR (a b : String) : Prop := strLe a b = true

instance : DecidableRel strLeR := fun a b => Bool.decEq (strLe a b) true

theorem char_eq_of_toNat_eq {a b : Char} (h : a.toNat = b.toNat) : a = b := by
  apply Char.eq_of_val_eq
  have hb : a.val.toBitVec = b.val.toBitVec := BitVec.eq_of_toNat_eq h
  calc a.val = UInt32.mk a.val.toBitVec := by rw [UInt32.mk_toBitVec_eq]
    _ = UInt32.mk b.val.toBitVec := by rw [hb]
    _ = b.val := by rw [UInt32.mk_toBitVec_eq]

theorem listLe_cons (a b : Char) (as bs : List Char) :
    listLe (a :: as) (b :: bs) = true ↔
      a.toNat < b.toNat ∨ (a.toNat = b.toNat ∧ listLe as bs = true) := by
  rw [listLe]
  split
  · rename_i h1
    simp [h1]
  · rename_i h1
    split
    · rename_i h2
      simp only [Bool.false_eq_true, false_iff]
      push_neg
      constructor
      · omega
      · intro he
        omega
    · rename_i h2
      have : a.toNat = b.toNat := by omega
      simp [this]

theorem listLe_total (a b : List Char) : listLe a b = true ∨ listLe b a = true := by
  induction a generalizing b with
  | nil => left; rw [listLe]
  | cons x xs ih =>
    cases b with
    | nil => right; rw [listLe]
    | cons y ys =>
      rcases Nat.lt_trichotomy x.toNat y.toNat with h | h | h
      · left; rw [listLe_cons]; exact Or.inl h
      · rcases ih ys with h2 | h2
        · left; rw [listLe_cons]; exact Or.inr ⟨h, h2⟩
        · right; rw [listLe_cons]; exact Or.inr ⟨h.symm, h2⟩
      · right; rw [listLe_cons]; exact Or.inl h

theorem listLe_trans {a b c : List Char} (hab : listLe a b = true)
    (hbc : listLe b c = true) : listLe a c = true := by
  induction a generalizing b c with
  | nil => rw [listLe]
  | cons x xs ih =>
    cases b with
    | nil => rw [listLe] at hab; exact absurd hab (by simp)
    | cons y ys =>
      cases c with
      | nil => rw [listLe] at hbc; exact absurd hbc (by simp)
      | cons z zs =>
        rw [listLe_cons] at hab hbc ⊢
        rcases hab with h1 | ⟨h1, h1'⟩ <;> rcases hbc with h2 | ⟨h2, h2'⟩
        · exact Or.inl (h1.trans h2)
        · exact Or.inl (h2 ▸ h1)
        · exact Or.inl (h1 ▸ h2)
        · exact Or.inr ⟨h1.trans h2, ih h1' h2'⟩

theorem listLe_antisymm {a b : List Char} (hab : listLe a b = true)
    (hba : listLe b a = true) : a = b := by
  induction a generalizing b with
  | nil =>
    cases b with
    | nil => rfl
    | cons y ys => rw [listLe] at hba; exact absurd hba (by simp)
  | cons x xs ih =>
    cases b with
    | nil => rw [listLe] at hab; exact absurd hab (by simp)
    | cons y ys =>
      rw [listLe_cons] at hab hba
      rcases hab with h1 | ⟨h1, h1'⟩ <;> rcases hba with h2 | ⟨h2, h2'⟩ <;>
        first
        | omega
        | exact absurd h1 (by omega)
        | exact absurd h2 (by omega)
        | exact congrArg₂ (· :: ·) (char_eq_of_toNat_eq (by omega)) (ih h1' h2')

instance : IsTotal String strLeR :=
  ⟨fun a b => listLe_total a.data b.data⟩

instance : IsTrans String strLeR :=
  ⟨fun _ _ _ hab hbc => listLe_trans hab hbc⟩

instance : IsAntisymm String strLeR :=
  ⟨fun a b hab hba => by
    cases a; cases b
    exact congrArg String.mk (listLe_antisymm hab hba)⟩

/-- Python `sorted` on a list of strings. -/
def pySorted (l : List String) : List String := l.insertionSort strLeR

/-- Python `', '.join`. -/
def joinCommaSpace : List String → String
  | [] => ""
  | [s] => s
  | s :: ss => s ++ ", " ++ joinCommaSpace ss

/-! ### The node model

The generic parser output (the JSON tree produced by the external
parser collaborator) is embedded as `RawNode`; the typed node model of
the source as `Node`.  The `position` and `type` fields of a generic
node are only used for dispatch and validation in the source and carry
no information for construction, so they are not represented. -/

/-- A generic declaration dict `{'property': ..., 'value': ...}`. -/
structure RawDecl where
  property : String
  value : String

/-- A generic keyframe dict `{'values': ..., 'declarations': ...}`. -/
structure RawKeyFrame where
  values : List String
  declarations : List RawDecl

/-- A generic node dict, tagged by its `type` field.  `vendor` is
optional on `document` and `keyframes` nodes (`dct.get('vendor', '')`
in the source). -/
inductive RawNode where
  | charset (charset : String)
  | comment (comment : String)
  | document (vendor : Option String) (document : String) (rules : List RawNode)
  | importRule (value : String)
  | keyframes (vendor : Option String) (name : String) (keyframes : List RawKeyFrame)
  | media (media : String) (rules : List RawNode)
  | rule (selectors : List String) (declarations : List RawDecl)
  | supports (supports : String) (rules : List RawNode)

structure Property where
  name : String
  value : String
deriving DecidableEq

structure KeyFrame where
  values : String
  properties : List Property
deriving DecidableEq

/-- The typed node model: `Charset`, `Comment`, `Document`, `Import`,
`KeyFrames`, `MediaQuery`, `Rule` and `Supports` of the source, as one
variant type. -/
inductive Node where
  | charset (charset : String)
  | comment (comment : String)
  | document (vendor : String) (name : String) (rules : List Node)
  | importRule (value : String)
  | keyframes (vendor : String) (name : String) (keyframes : List KeyFrame)
  | media (media : String) (rules : List Node)
  | rule (selectors : String) (properties : List Property)
  | supports (supports : String) (rules : List Node)

/-- The three keyword options of `format_css` (the `Settings` named
tuple of the source; every field defaults to `False`). -/
structure Settings where
  ignore_charset : Bool
  ignore_comments : Bool
  ignore_empty_rules : Bool
deriving DecidableEq

def defaultSettings : Settings := ⟨false, false, false⟩

/-- `Property.from_dict`: normalize the declaration's value through the
fixed substitution sequence; the slash normalization runs only for the
`font` property. -/
def Property.from_dict (dct : RawDecl) : Property :=
  let value := dct.value
  let value := COLOR_RE_sub value
  let value := COMMA_RE_sub value
  let value := FLOAT_RE_sub value
  let value := POINT_ZERO_sub value
  let value := QUOTE_RE_sub value
  let value := RGBA_RE_sub value
  let value := shortColors_sub value
  let value := if dct.property = "font" then SLASH_RE_sub value else value
  let value := SPACES_RE_sub value
  let value := norm_unicode_escapes value
  ⟨dct.property, value⟩

/-- `Property.to_text`: `    <name>: <value>;\n`. -/
def Property.to_text (_settings : Settings) (p : Property) : String :=
  "    " ++ p.name ++ ": " ++ p.value ++ ";\n"

/-- `KeyFrame.from_dict`. -/
def KeyFrame.from_dict (dct : RawKeyFrame) : KeyFrame :=
  ⟨joinCommaSpace dct.values, dct.declarations.map Property.from_dict⟩

/-- `KeyFrame.to_text`: `<values> {\n<properties>}\n`. -/
def KeyFrame.to_text (settings : Settings) (k : KeyFrame) : String :=
  k.values ++ " \x7b\n" ++ strJoin (k.properties.map (Property.to_text settings)) ++ "\x7d\n"

/-- `Rule.from_dict`: re-space the combinators of each selector, sort
the selectors, and join them with `', '`. -/
def Rule.from_dict (selectors : List String) (declarations : List RawDecl) : Node :=
  Node.rule (joinCommaSpace (pySorted (selectors.map RELATION_RE_sub)))
    (declarations.map Property.from_dict)

/-- `MediaQuery.from_dict` normalizes the media text with the comma
rule (selector sorting does not apply to media queries). -/
def MediaQuery.from_dict_media (media : String) : String := COMMA_RE_sub media

/-- `generic_to_node`: dispatch a generic node on its `type` tag to
the matching `from_dict` construction, recursively converting nested
rule lists. -/
def generic_to_node : RawNode → Node
  | .charset c => .charset c
  | .comment c => .comment c
  | .document vendor name rules =>
    .document (vendor.getD "") name
      (rules.attach.map (fun x => generic_to_node x.1))
  | .importRule v => .importRule v
  | .keyframes vendor name frames =>
    .keyframes (vendor.getD "") name (frames.map KeyFrame.from_dict)
  | .media m rules =>
    .media (MediaQuery.from_dict_media m)
      (rules.attach.map (fun x => generic_to_node x.1))
  | .rule selectors declarations => Rule.from_dict selectors declarations
  | .supports s rules =>
    .supports s (rules.attach.map (fun x => generic_to_node x.1))
decreasing_by
  all_goals
    have hm := List.sizeOf_lt_of_mem x.2
    first
    | (simp only [RawNode.document.sizeOf_spec]; omega)
    | (simp only [RawNode.media.sizeOf_spec]; omega)
    | (simp only [RawNode.supports.sizeOf_spec]; omega)

/-- `to_text` of each node kind: `Charset.to_text`, `Comment.to_text`,
`Document.to_text`, `Import.to_text`, `KeyFrames.to_text`,
`MediaQuery.to_text`, `Rule.to_text` and `Supports.to_text` of the
source. -/
def Node.to_text (settings : Settings) : Node → String
  | .charset c =>
    if settings.ignore_charset then "" else "@charset " ++ c ++ ";\n"
  | .comment c =>
    if settings.ignore_comments then "" else "/*" ++ c ++ "*/\n"
  | .document vendor name rules =>
    "@" ++ vendor ++ "document " ++ name ++ " \x7b\n" ++
      indent (strJoin (rules.attach.map (fun x => Node.to_text settings x.1))) ++ "\x7d\n"
  | .importRule v => "@import " ++ v ++ ";\n"
  | .keyframes vendor name frames =>
    "@" ++ vendor ++ "keyframes " ++ name ++ " \x7b\n" ++
      indent (strJoin (frames.map (KeyFrame.to_text settings))) ++ "\x7d\n"
  | .media m rules =>
    "@media " ++ m ++ " \x7b\n" ++
      indent (strJoin (rules.attach.map (fun x => Node.to_text settings x.1))) ++ "\x7d\n"
  | .rule selectors properties =>
    if settings.ignore_empty_rules && properties.isEmpty then ""
    else selectors ++ " \x7b\n" ++
      strJoin (properties.map (Property.to_text settings)) ++ "\x7d\n"
  | .supports s rules =>
    "@supports " ++ s ++ " \x7b\n" ++
      indent (strJoin (rules.attach.map (fun x => Node.to_text settings x.1))) ++ "\x7d\n"
decreasing_by
  all_goals
    have hm := List.sizeOf_lt_of_mem x.2
    first
    | (simp only [Node.document.sizeOf_spec]; omega)
    | (simp only [Node.media.sizeOf_spec]; omega)
    | (simp only [Node.supports.sizeOf_spec]; omega)

/-! ### The format pipeline -/

/-- The error raised when the parser collaborator exits with a nonzero
status (`CalledProcessError` of the source, which formats these three
fields into its message). -/
structure CalledProcessError where
  returncode : Nat
  out : String
  err : String
deriving DecidableEq

/-- Modelled from the spec: the outcome of one exchange with the
external parser collaborator (§6), which is out of scope for the
engine (`subprocess` plus JSON decoding in the source): its exit
status, its raw stdout and stderr text, and — when it succeeds — the
decoded `stylesheet.rules` list. -/
structure ParserResult where
  returncode : Nat
  out : String
  err : String
  sheet : List RawNode

/-- `format_css`: raise `CalledProcessError` when the parser exited
nonzero, otherwise convert each top-level generic node and concatenate
the rendered texts in document order. -/
def format_css (res : ParserResult) (settings : Settings) :
    Except CalledProcessError String :=
  if res.returncode ≠ 0 then
    .error ⟨res.returncode, res.out, res.err⟩
  else
    .ok (strJoin ((res.sheet.map generic_to_node).map (Node.to_text settings)))

/-! ### Unfolded rendering equations for the container kinds -/

theorem to_text_media (s : Settings) (m : String) (rules : List Node) :
    Node.to_text s (.media m rules) =
      "@media " ++ m ++ " \x7b\n" ++ indent (strJoin (rules.map (Node.to_text s))) ++ "\x7d\n" := by
  rw [Node.to_text]
  rw [List.attach_map_val rules (Node.to_text s)]

theorem to_text_supports (s : Settings) (sup : String) (rules : List Node) :
    Node.to_text s (.supports sup rules) =
      "@supports " ++ sup ++ " \x7b\n" ++ indent (strJoin (rules.map (Node.to_text s))) ++ "\x7d\n" := by
  rw [Node.to_text]
  rw [List.attach_map_val rules (Node.to_text s)]

theorem to_text_document (s : Settings) (vendor name : String) (rules : List Node) :
    Node.to_text s (.document vendor name rules) =
      "@" ++ vendor ++ "document " ++ name ++ " \x7b\n" ++
        indent (strJoin (rules.map (Node.to_text s))) ++ "\x7d\n" := by
  rw [Node.to_text]
  rw [List.attach_map_val rules (Node.to_text s)]

theorem generic_to_node_media (m : String) (rules : List RawNode) :
    generic_to_node (.media m rules) =
      .media (MediaQuery.from_dict_media m) (rules.map generic_to_node) := by
  rw [generic_to_node]
  rw [List.attach_map_val rules generic_to_node]

theorem generic_to_node_supports (s : String) (rules : List RawNode) :
    generic_to_node (.supports s rules) = .supports s (rules.map generic_to_node) := by
  rw [generic_to_node]
  rw [List.attach_map_val rules generic_to_node]

theorem generic_to_node_document (vendor : Option String) (name : String)
    (rules : List RawNode) :
    generic_to_node (.document vendor name rules) =
      .document (vendor.getD "") name (rules.map generic_to_node) := by
  rw [generic_to_node]
  rw [List.attach_map_val rules generic_to_node]

/-! ### Lines, blocks and the composition law of `indent`

A rendered block is a concatenation of newline-terminated lines; on
such blocks `indent` prefixes each line with four spaces.  These
lemmas make that precise via `splitlinesList`. -/

/-- No character of `l` is a line boundary. -/
def breakFree (l : List Char) : Bool := l.all (fun c => !isLineBreakChar c)

/-- The concatenation of a list of lines, each terminated by a
newline. -/
def blockJoin (L : List (List Char)) : List Char := (L.map (fun l => l ++ ['\n'])).join

theorem blockJoin_nil : blockJoin [] = [] := rfl

theorem blockJoin_cons (x : List Char) (L : List (List Char)) :
    blockJoin (x :: L) = x ++ '\n' :: blockJoin L := by
  simp [blockJoin]

theorem blockJoin_append (A B : List (List Char)) :
    blockJoin (A ++ B) = blockJoin A ++ blockJoin B := by
  simp [blockJoin]

theorem splitlines_line (a : List Char) (rest : List Char) (ha : breakFree a = true) :
    splitlinesList (a ++ '\n' :: rest) = a :: splitlinesList rest := by
  induction a with
  | nil =>
    simp only [List.nil_append]
    rw [splitlinesList]
    simp +decide
  | cons c atl ih =>
    simp only [breakFree, List.all_cons, Bool.and_eq_true, Bool.not_eq_true'] at ha
    obtain ⟨hc, hatl⟩ := ha
    have ih' := ih hatl
    simp only [List.cons_append]
    rw [splitlinesList]
    simp only [hc, Bool.false_eq_true, if_false]
    rw [ih']

theorem splitlines_blockJoin (L : List (List Char))
    (hL : ∀ l ∈ L, breakFree l = true) :
    splitlinesList (blockJoin L) = L := by
  induction L with
  | nil => rw [blockJoin_nil, splitlinesList]
  | cons x L ih =>
    rw [blockJoin_cons, splitlines_line x (blockJoin L) (hL x (by simp))]
    rw [ih (fun l hl => hL l (by simp [hl]))]

theorem joinWithNl_block (M : List (List Char)) (hM : M ≠ []) :
    joinWithNl M ++ ['\n'] = blockJoin M := by
  induction M with
  | nil => exact absurd rfl hM
  | cons x M ih =>
    cases M with
    | nil => rw [joinWithNl, blockJoin_cons, blockJoin_nil]
    | cons y M' =>
      have : joinWithNl (x :: y :: M') = x ++ ('\n' :: joinWithNl (y :: M')) := rfl
      rw [this, blockJoin_cons, ← ih (by simp)]
      simp

theorem indent_blockJoin (L : List (List Char)) (hL : ∀ l ∈ L, breakFree l = true)
    (hne : L ≠ []) :
    indent ⟨blockJoin L⟩ = ⟨blockJoin (L.map (fun l => ' ' :: ' ' :: ' ' :: ' ' :: l))⟩ := by
  rw [indent]
  have hdata : (String.mk (blockJoin L)).data = blockJoin L := rfl
  rw [hdata, splitlines_blockJoin L hL]
  rw [joinWithNl_block _ (by simpa using hne)]

theorem indent_empty : indent "" = "\n" := by
  rw [indent]
  have : ("" : String).data = [] := rfl
  rw [this, splitlinesList]
  rfl

theorem strJoin_data (ss : List String) :
    (strJoin ss).data = (ss.map String.data).join := by
  induction ss with
  | nil => rfl
  | cons s ss ih => rw [strJoin, String.data_append, ih]; simp

/-! ### Rendered rule blocks as lines -/

/-- The unindented text of one declaration line, `name: value;`. -/
def propLineChars (p : Property) : List Char :=
  p.name.data ++ ':' :: ' ' :: (p.value.data ++ [';'])

/-- The lines of a rendered (non-suppressed) rule block: the selector
header, one 4-space-indented line per declaration, and the closing
brace. -/
def ruleLines (sel : String) (props : List Property) : List (List Char) :=
  (sel.data ++ [' ', '{']) ::
    (props.map (fun p => ' ' :: ' ' :: ' ' :: ' ' :: propLineChars p) ++ [['}']])

theorem property_to_text_data (s : Settings) (p : Property) :
    (Property.to_text s p).data =
      (' ' :: ' ' :: ' ' :: ' ' :: propLineChars p) ++ ['\n'] := by
  have h1 : ("    " : String).data = [' ', ' ', ' ', ' '] := by decide
  have h2 : (": " : String).data = [':', ' '] := by decide
  have h3 : (";\n" : String).data = [';', '\n'] := by decide
  simp [Property.to_text, String.data_append, h1, h2, h3, propLineChars]

theorem rule_to_text_blockJoin (s : Settings) (sel : String) (props : List Property)
    (h : s.ignore_empty_rules = false) :
    (Node.to_text s (.rule sel props)).data = blockJoin (ruleLines sel props) := by
  rw [Node.to_text]
  simp only [h, Bool.false_and, Bool.false_eq_true, if_false]
  have h1 : (" \x7b\n" : String).data = [' ', '{', '\n'] := by decide
  have h2 : ("\x7d\n" : String).data = ['}', '\n'] := by decide
  simp only [String.data_append, strJoin_data, List.map_map, h1, h2]
  rw [ruleLines, blockJoin_cons, blockJoin_append, blockJoin_cons, blockJoin_nil]
  simp only [blockJoin, List.map_map]
  have hfun : (String.data ∘ Property.to_text s) =
      fun p => (' ' :: ' ' :: ' ' :: ' ' :: propLineChars p) ++ ['\n'] := by
    funext p
    exact property_to_text_data s p
  rw [hfun]
  simp only [List.append_assoc, List.cons_append, List.nil_append, List.append_nil]
  have hcomp : ((fun l => l ++ ['\n']) ∘ fun p => ' ' :: ' ' :: ' ' :: ' ' :: propLineChars p) =
      fun p => ' ' :: ' ' :: ' ' :: ' ' :: (propLineChars p ++ ['\n']) := by
    funext p
    simp
  rw [hcomp]

theorem ruleLines_breakFree (sel : String) (props : List Property)
    (hsel : breakFree sel.data = true)
    (hprops : ∀ p ∈ props, breakFree p.name.data = true ∧ breakFree p.value.data = true) :
    ∀ l ∈ ruleLines sel props, breakFree l = true := by
  intro l hl
  rw [ruleLines] at hl
  simp only [List.mem_cons, List.mem_append, List.mem_map, List.mem_singleton] at hl
  rcases hl with h | ⟨p, hp, rfl⟩ | h
  · subst h
    simp only [breakFree, List.all_append] at hsel ⊢
    simp +decide [hsel]
  · have := hprops p hp
    simp only [breakFree, List.all_append, List.all_cons] at this ⊢
    simp +decide [this.1, this.2, propLineChars, List.all_append]
  · rcases h with h | h
    · subst h
      decide
    · simp at h

theorem strJoin_singleton (t : String) : strJoin [t] = t := by
  apply String.ext
  rw [strJoin, strJoin, String.data_append]
  show t.data ++ [] = t.data
  exact List.append_nil t.data

/-- Rendering a container around an inner block whose text is the
lines `L`: the result is the block whose lines are the header, the
4-space-indented lines of `L`, and the closing brace. -/
theorem container_wrap (pre : String) (inner : String) (L : List (List Char))
    (hinner : inner = ⟨blockJoin L⟩) (hL : ∀ l ∈ L, breakFree l = true) (hne : L ≠ []) :
    pre ++ " \x7b\n" ++ indent inner ++ "\x7d\n" =
      ⟨blockJoin ((pre.data ++ [' ', '{']) ::
        (L.map (fun l => ' ' :: ' ' :: ' ' :: ' ' :: l) ++ [['}']]))⟩ := by
  apply String.ext
  rw [hinner, indent_blockJoin L hL hne]
  have h1 : (" \x7b\n" : String).data = [' ', '{', '\n'] := by decide
  have h2 : ("\x7d\n" : String).data = ['}', '\n'] := by decide
  simp only [String.data_append, h1, h2]
  rw [blockJoin_cons, blockJoin_append, blockJoin_cons, blockJoin_nil]
  show _ ++ _ = _
  simp [List.append_assoc]

theorem wrap_lines_breakFree (pre : String) (L : List (List Char))
    (hpre : breakFree pre.data = true) (hL : ∀ l ∈ L, breakFree l = true) :
    ∀ l ∈ (pre.data ++ [' ', '{']) ::
      (L.map (fun l => ' ' :: ' ' :: ' ' :: ' ' :: l) ++ [['}']]), breakFree l = true := by
  intro l hl
  simp only [List.mem_cons, List.mem_append, List.mem_map, List.mem_singleton] at hl
  rcases hl with h | ⟨x, hx, rfl⟩ | h | h
  · subst h
    simp only [breakFree, List.all_append] at hpre ⊢
    simp +decide [hpre]
  · have := hL x hx
    simp only [breakFree, List.all_cons] at this ⊢
    simp +decide [this]
  · subst h
    decide
  · simp at h

/-! ### The spec's canonical transform sequence (§4.2)

For the refinement claim about `Property.from_dict`, the ten-step
ordered transform list is written down separately, following the
spec's wording (a constant ordered list of transform references, the
font-slash step conditioned on the property name), to be compared with
the construction from the source. -/

def specTransformList (property : String) : List (String → String) :=
  [COLOR_RE_sub, COMMA_RE_sub, FLOAT_RE_sub, POINT_ZERO_sub, QUOTE_RE_sub,
    RGBA_RE_sub, shortColors_sub,
    (fun v => if property = "font" then SLASH_RE_sub v else v),
    SPACES_RE_sub, norm_unicode_escapes]

/-- The composition of the ten spec steps, in the spec's order. -/
def specNormalizedValue (property value : String) : String :=
  (specTransformList property).foldl (fun v f => f v) value

/-! ### Helper evaluations of concrete pipeline runs -/

theorem fd_red : Property.from_dict ⟨"color", "red"⟩ = ⟨"color", "red"⟩ := by
  simp +decide [Property.from_dict, COLOR_RE_sub, COMMA_RE_sub, FLOAT_RE_sub, POINT_ZERO_sub,
    QUOTE_RE_sub, RGBA_RE_sub, shortColors_sub, SLASH_RE_sub, SPACES_RE_sub,
    colorSubList, commaSubList, floatSubList, floatSubAux, pointZeroSubList, quoteSubList,
    tryQuote, rgbaSubList, tryRgba, parseNum, parseCommaSpace, blackSubList, blackSubAux,
    whiteSubList, whiteSubAux, slashSubList, trySlash, spacesSubList, boundaryAfter,
    norm_unicode_escapes, findEscapesList, isHexDigitChar, isDigitChar, isWordChar, pyIsSpace,
    List.takeWhile, List.dropWhile]

theorem fd_hex : Property.from_dict ⟨"color", "#223344"⟩ = ⟨"color", "#234"⟩ := by
  simp +decide [Property.from_dict, COLOR_RE_sub, COMMA_RE_sub, FLOAT_RE_sub, POINT_ZERO_sub,
    QUOTE_RE_sub, RGBA_RE_sub, shortColors_sub, SLASH_RE_sub, SPACES_RE_sub,
    colorSubList, commaSubList, floatSubList, floatSubAux, pointZeroSubList, quoteSubList,
    tryQuote, rgbaSubList, tryRgba, parseNum, parseCommaSpace, blackSubList, blackSubAux,
    whiteSubList, whiteSubAux, slashSubList, trySlash, spacesSubList, boundaryAfter,
    norm_unicode_escapes, findEscapesList, isHexDigitChar, isDigitChar, isWordChar, pyIsSpace,
    List.takeWhile, List.dropWhile]

theorem fd_font : Property.from_dict ⟨"font", "12px/1.2 Arial"⟩ = ⟨"font", "12px / 1.2 Arial"⟩ := by
  simp +decide [Property.from_dict, COLOR_RE_sub, COMMA_RE_sub, FLOAT_RE_sub, POINT_ZERO_sub,
    QUOTE_RE_sub, RGBA_RE_sub, shortColors_sub, SLASH_RE_sub, SPACES_RE_sub,
    colorSubList, commaSubList, floatSubList, floatSubAux, pointZeroSubList, quoteSubList,
    tryQuote, rgbaSubList, tryRgba, parseNum, parseCommaSpace, blackSubList, blackSubAux,
    whiteSubList, whiteSubAux, slashSubList, trySlash, spacesSubList, boundaryAfter,
    norm_unicode_escapes, findEscapesList, isHexDigitChar, isDigitChar, isWordChar, pyIsSpace,
    List.takeWhile, List.dropWhile]

theorem norm_esc_5C : norm_unicode_escapes "\\005C0041" = "\\0041" := by
  simp +decide [norm_unicode_escapes, findEscapesList, isHexDigitChar, pyIsSpace, escCharOf,
    hexListToNat, hexDigitVal, rstripList, replaceAllList, List.takeWhile, List.dropWhile]

theorem norm_esc_41 : norm_unicode_escapes "\\0041" = "A" := by
  simp +decide [norm_unicode_escapes, findEscapesList, isHexDigitChar, pyIsSpace, escCharOf,
    hexListToNat, hexDigitVal, rstripList, replaceAllList, List.takeWhile, List.dropWhile]

/-- Sorting is invariant under permutation of the input: insertion
sort yields a sorted permutation, and the sorted permutation of a list
is unique for the total, transitive, antisymmetric order `strLeR`. -/
theorem pySorted_perm_eq {l1 l2 : List String} (h : l1.Perm l2) :
    pySorted l1 = pySorted l2 := by
  apply List.eq_of_perm_of_sorted
    (((List.perm_insertionSort strLeR l1).trans h).trans
      (List.perm_insertionSort strLeR l2).symm)
    (List.sorted_insertionSort strLeR l1)
    (List.sorted_insertionSort strLeR l2)

/-! ### The claims -/

/-- C1: for every declaration dict, `Property.from_dict` stores the
value obtained by applying exactly the ten transforms of the spec —
hex-color shortening, comma re-spacing, leading-zero floats,
trailing-zero pixel lengths, double-to-single quoting, rgba argument
re-spacing, named-color shortening, font-only slash re-spacing,
multi-space collapse, unicode escape resolution — in that order. -/
theorem claim_C1 (dct : RawDecl) :
    (Property.from_dict dct).value = specNormalizedValue dct.property dct.value := by
  simp only [Property.from_dict, specNormalizedValue, specTransformList, List.foldl]

/-- C2: `Rule.from_dict` re-spaces the `+`/`>` combinators of each
selector, sorts the selector strings lexicographically and joins them
with `', '`; hence permuting the input selector list leaves the
constructed rule unchanged, and
`format_css("b, a, c { color: red; }")` renders `"a, b, c {\n    color: red;\n}\n"`. -/
theorem claim_C2 :
    (∀ (s1 s2 : List String) (decls : List RawDecl), s1.Perm s2 →
      Rule.from_dict s1 decls = Rule.from_dict s2 decls) ∧
    format_css ⟨0, "", "", [RawNode.rule ["b", "a", "c"] [⟨"color", "red"⟩]]⟩
        defaultSettings =
      .ok "a, b, c \x7b\n    color: red;\n\x7d\n" := by
  constructor
  · intro s1 s2 decls h
    simp only [Rule.from_dict]
    rw [pySorted_perm_eq (h.map RELATION_RE_sub)]
  · simp +decide [format_css, generic_to_node, Rule.from_dict, fd_red, pySorted,
      List.insertionSort, List.orderedInsert, strLeR, strLe, listLe, joinCommaSpace,
      RELATION_RE_sub, relationSubList, tryRelation, pyIsSpace, List.dropWhile,
      Node.to_text, Property.to_text, strJoin, defaultSettings]

theorem claim_C2_witness :
    (["b", "a"] : List String).Perm ["a", "b"] ∧
      Rule.from_dict ["b", "a"] [] = Rule.from_dict ["a", "b"] [] :=
  ⟨List.Perm.swap "a" "b" [], claim_C2.1 ["b", "a"] ["a", "b"] [] (List.Perm.swap "a" "b" [])⟩

/-- C3: `format_css` raises `CalledProcessError`, carrying the
parser's exit status and its stdout and stderr text, exactly when the
parser collaborator exits nonzero; in that case no output text is
produced, and on a zero exit it returns formatted text. -/
theorem claim_C3 (res : ParserResult) (settings : Settings) :
    (res.returncode ≠ 0 →
      format_css res settings = .error ⟨res.returncode, res.out, res.err⟩) ∧
    (res.returncode = 0 → ∃ t : String, format_css res settings = .ok t) := by
  constructor
  · intro h
    simp [format_css, h]
  · intro h
    refine ⟨strJoin ((res.sheet.map generic_to_node).map (Node.to_text settings)), ?_⟩
    simp [format_css, h]

theorem claim_C3_witness :
    format_css ⟨1, "parse out", "parse err", []⟩ defaultSettings =
      .error ⟨1, "parse out", "parse err"⟩ :=
  (claim_C3 ⟨1, "parse out", "parse err", []⟩ defaultSettings).1 (by decide)

/-- C4 counterexample: `norm_unicode_escapes` is not idempotent: on
`\005C0041` one application yields `\0041` (because `\005C` resolves
to a backslash, which joins the following hex digits into a new escape
sequence), and a second application yields `A`. -/
theorem claim_C4_counterexample :
    norm_unicode_escapes (norm_unicode_escapes "\\005C0041") ≠
      norm_unicode_escapes "\\005C0041" := by
  rw [norm_esc_5C, norm_esc_41]
  decide

/-- C4 (amended): applying `norm_unicode_escapes` to a string with no
escape-sequence match is a no-op; consequently
`norm_unicode_escapes` is idempotent at every value whose resolved
form contains no further escape sequence (resolution can create a new
escape only when an escape denotes a backslash). -/
theorem claim_C4_amended (v : String) :
    (findEscapesList v.data = [] → norm_unicode_escapes v = v) ∧
    (findEscapesList (norm_unicode_escapes v).data = [] →
      norm_unicode_escapes (norm_unicode_escapes v) = norm_unicode_escapes v) := by
  have base : ∀ w : String, findEscapesList w.data = [] → norm_unicode_escapes w = w := by
    intro w hw
    rw [norm_unicode_escapes, hw]
    simp only [List.foldl_nil]
  exact ⟨base v, base (norm_unicode_escapes v)⟩

theorem claim_C4_witness :
    findEscapesList ("1px solid #000" : String).data = [] ∧
      norm_unicode_escapes "1px solid #000" = "1px solid #000" := by
  have he : findEscapesList ("1px solid #000" : String).data = [] := by
    simp +decide [findEscapesList, isHexDigitChar, pyIsSpace]
  exact ⟨he, (claim_C4_amended "1px solid #000").1 he⟩

/-- C5: hex-color shortening rewrites every `#` followed by three
doubled hex-digit pairs to the three-digit form and leaves any other
six-hex-digit color unchanged; `format_css("a { color: #223344; }")`
renders `"a {\n    color: #234;\n}\n"`. -/
theorem claim_C5 :
    (∀ a b c : Char, isHexDigitChar a = true → isHexDigitChar b = true →
      isHexDigitChar c = true →
      COLOR_RE_sub ⟨['#', a, a, b, b, c, c]⟩ = ⟨['#', a, b, c]⟩) ∧
    COLOR_RE_sub "#aabbcd" = "#aabbcd" ∧
    COLOR_RE_sub "#aabbcc #ddeeff" = "#abc #def" ∧
    format_css ⟨0, "", "", [RawNode.rule ["a"] [⟨"color", "#223344"⟩]]⟩ defaultSettings =
      .ok "a \x7b\n    color: #234;\n\x7d\n" := by
  refine ⟨?_, by decide, by decide, ?_⟩
  · intro a b c ha hb hc
    simp [COLOR_RE_sub, colorSubList, ha, hb, hc]
  · simp +decide [format_css, generic_to_node, Rule.from_dict, fd_hex, pySorted,
      List.insertionSort, List.orderedInsert, strLeR, strLe, listLe, joinCommaSpace,
      RELATION_RE_sub, relationSubList, tryRelation, pyIsSpace, List.dropWhile,
      Node.to_text, Property.to_text, strJoin, defaultSettings]

theorem claim_C5_witness :
    isHexDigitChar '2' = true ∧ isHexDigitChar '3' = true ∧ isHexDigitChar '4' = true ∧
      COLOR_RE_sub ⟨['#', '2', '2', '3', '3', '4', '4']⟩ = ⟨['#', '2', '3', '4']⟩ :=
  ⟨by decide, by decide, by decide,
    claim_C5.1 '2' '3' '4' (by decide) (by decide) (by decide)⟩

/-- C6: the slash re-spacing step runs exactly when the declaration's
property name is `font`; for every other property the value pipeline
is the same composition without the slash step, and
`format_css("a {font: 12px/1.2 Arial}")` renders
`"a {\n    font: 12px / 1.2 Arial;\n}\n"`. -/
theorem claim_C6 :
    (∀ v : String, (Property.from_dict ⟨"font", v⟩).value =
      norm_unicode_escapes (SPACES_RE_sub (SLASH_RE_sub (shortColors_sub (RGBA_RE_sub
        (QUOTE_RE_sub (POINT_ZERO_sub (FLOAT_RE_sub (COMMA_RE_sub (COLOR_RE_sub v)))))))))) ∧
    (∀ p v : String, p ≠ "font" → (Property.from_dict ⟨p, v⟩).value =
      norm_unicode_escapes (SPACES_RE_sub (shortColors_sub (RGBA_RE_sub
        (QUOTE_RE_sub (POINT_ZERO_sub (FLOAT_RE_sub (COMMA_RE_sub (COLOR_RE_sub v))))))))) ∧
    format_css ⟨0, "", "", [RawNode.rule ["a"] [⟨"font", "12px/1.2 Arial"⟩]]⟩ defaultSettings =
      .ok "a \x7b\n    font: 12px / 1.2 Arial;\n\x7d\n" := by
  refine ⟨?_, ?_, ?_⟩
  · intro v
    simp [Property.from_dict]
  · intro p v hp
    simp [Property.from_dict, hp]
  · simp +decide [format_css, generic_to_node, Rule.from_dict, fd_font, pySorted,
      List.insertionSort, List.orderedInsert, strLeR, strLe, listLe, joinCommaSpace,
      RELATION_RE_sub, relationSubList, tryRelation, pyIsSpace, List.dropWhile,
      Node.to_text, Property.to_text, strJoin, defaultSettings]

theorem claim_C6_witness :
    ("width" : String) ≠ "font" ∧
      (Property.from_dict ⟨"width", "3.0px"⟩).value =
        norm_unicode_escapes (SPACES_RE_sub (shortColors_sub (RGBA_RE_sub
          (QUOTE_RE_sub (POINT_ZERO_sub (FLOAT_RE_sub (COMMA_RE_sub
            (COLOR_RE_sub "3.0px")))))))) :=
  ⟨by decide, claim_C6.2.1 "width" "3.0px" (by decide)⟩

/-- C7: indentation composes recursively — every line of an
already-rendered block is prefixed with 4 more spaces per enclosing
container — so for a rule inside a media query inside a supports
block, every declaration line is indented exactly 12 spaces relative
to the document root. -/
theorem claim_C7 (sup med sel : String) (props : List Property) (s : Settings)
    (hrule : s.ignore_empty_rules = false)
    (hmed : breakFree med.data = true) (hsel : breakFree sel.data = true)
    (hprops : ∀ p ∈ props, breakFree p.name.data = true ∧ breakFree p.value.data = true) :
    Node.to_text s (.supports sup [.media med [.rule sel props]]) =
      "@supports " ++ sup ++ " \x7b\n    @media " ++ med ++ " \x7b\n        " ++ sel ++ " \x7b\n" ++
        strJoin (props.map (fun p => "            " ++ p.name ++ ": " ++ p.value ++ ";\n")) ++
        "        \x7d\n    \x7d\n\x7d\n" := by
  have hRstr : Node.to_text s (.rule sel props) = ⟨blockJoin (ruleLines sel props)⟩ :=
    String.ext (rule_to_text_blockJoin s sel props hrule)
  have hRL := ruleLines_breakFree sel props hsel hprops
  have hRne : ruleLines sel props ≠ [] := by simp [ruleLines]
  have hMedPre : breakFree ("@media " ++ med).data = true := by
    simp only [breakFree, String.data_append, List.all_append] at hmed ⊢
    simp +decide [hmed]
  have hM : Node.to_text s (.media med [.rule sel props]) =
      ⟨blockJoin ((("@media " ++ med).data ++ [' ', '{']) ::
        ((ruleLines sel props).map (fun l => ' ' :: ' ' :: ' ' :: ' ' :: l) ++ [['}']]))⟩ := by
    rw [to_text_media]
    rw [List.map_cons, List.map_nil, strJoin_singleton]
    rw [String.append_assoc "@media " med " \x7b\n"]
    exact container_wrap ("@media " ++ med) _ _ hRstr hRL hRne
  have hML := wrap_lines_breakFree ("@media " ++ med) (ruleLines sel props) hMedPre hRL
  have hMne : (("@media " ++ med).data ++ [' ', '{']) ::
      ((ruleLines sel props).map (fun l => ' ' :: ' ' :: ' ' :: ' ' :: l) ++ [['}']]) ≠ [] := by
    simp
  have hS : Node.to_text s (.supports sup [.media med [.rule sel props]]) =
      ⟨blockJoin ((("@supports " ++ sup).data ++ [' ', '{']) ::
        (((("@media " ++ med).data ++ [' ', '{']) ::
          ((ruleLines sel props).map (fun l => ' ' :: ' ' :: ' ' :: ' ' :: l) ++
            [['}']])).map (fun l => ' ' :: ' ' :: ' ' :: ' ' :: l) ++ [['}']]))⟩ := by
    rw [to_text_supports]
    rw [List.map_cons, List.map_nil, strJoin_singleton]
    rw [String.append_assoc "@supports " sup " \x7b\n"]
    exact container_wrap ("@supports " ++ sup) _ _ hM hML hMne
  rw [hS]
  apply String.ext
  show blockJoin _ = _
  have b1 : (" \x7b\n    @media " : String).data =
      [' ', '{', '\n', ' ', ' ', ' ', ' '] ++ ("@media " : String).data := by decide
  have b2 : (" \x7b\n        " : String).data =
      [' ', '{', '\n', ' ', ' ', ' ', ' ', ' ', ' ', ' ', ' '] := by decide
  have b3 : (" \x7b\n" : String).data = [' ', '{', '\n'] := by decide
  have b4 : ("        \x7d\n    \x7d\n\x7d\n" : String).data =
      [' ', ' ', ' ', ' ', ' ', ' ', ' ', ' ', '}', '\n',
       ' ', ' ', ' ', ' ', '}', '\n', '}', '\n'] := by decide
  have hfun : (fun p => ("            " ++ p.name ++ ": " ++ p.value ++ ";\n" : String).data) =
      (fun p : Property =>
        ' ' :: ' ' :: ' ' :: ' ' :: ' ' :: ' ' :: ' ' :: ' ' :: ' ' :: ' ' :: ' ' :: ' ' ::
          (propLineChars p ++ ['\n'])) := by
    funext p
    have c1 : ("            " : String).data =
        [' ', ' ', ' ', ' ', ' ', ' ', ' ', ' ', ' ', ' ', ' ', ' '] := by decide
    have c2 : (": " : String).data = [':', ' '] := by decide
    have c3 : (";\n" : String).data = [';', '\n'] := by decide
    simp [String.data_append, c1, c2, c3, propLineChars]
  simp only [String.data_append, strJoin_data, List.map_map, hfun]
  simp only [blockJoin_cons, blockJoin_append, blockJoin_nil, List.map_cons, List.map_append,
    List.map_map, ruleLines, blockJoin, List.join, b1, b2, b3, b4, String.data_append]
  simp [Function.comp_def, List.append_assoc, List.cons_append, propLineChars]

theorem claim_C7_witness :
    (⟨false, false, false⟩ : Settings).ignore_empty_rules = false ∧
      Node.to_text ⟨false, false, false⟩
        (.supports "(a)" [.media "print" [.rule "b" [⟨"color", "red"⟩]]]) =
      "@supports (a) \x7b\n    @media print \x7b\n        b \x7b\n" ++
        strJoin ([⟨"color", "red"⟩].map
          (fun p : Property => "            " ++ p.name ++ ": " ++ p.value ++ ";\n")) ++
        "        \x7d\n    \x7d\n\x7d\n" :=
  ⟨rfl, claim_C7 "(a)" "print" "b" [⟨"color", "red"⟩] ⟨false, false, false⟩ rfl
    (by decide) (by decide)
    (by intro p hp; simp only [List.mem_singleton] at hp; subst hp; exact ⟨by decide, by decide⟩)⟩

/-! ### Which nodes the suppression options reach -/

/-- No node of a kind suppressed by the active options occurs in the
subtree: no `Comment` under `ignore_comments`, no `Charset` under
`ignore_charset`, no zero-declaration `Rule` under
`ignore_empty_rules`. -/
def Node.freeOfSuppressed (s : Settings) : Node → Bool
  | .charset _ => !s.ignore_charset
  | .comment _ => !s.ignore_comments
  | .rule _ props => !(s.ignore_empty_rules && props.isEmpty)
  | .importRule _ => true
  | .keyframes _ _ _ => true
  | .document _ _ rules => rules.attach.all (fun x => Node.freeOfSuppressed s x.1)
  | .media _ rules => rules.attach.all (fun x => Node.freeOfSuppressed s x.1)
  | .supports _ rules => rules.attach.all (fun x => Node.freeOfSuppressed s x.1)
decreasing_by
  all_goals
    have hm := List.sizeOf_lt_of_mem x.2
    first
    | (simp only [Node.document.sizeOf_spec]; omega)
    | (simp only [Node.media.sizeOf_spec]; omega)
    | (simp only [Node.supports.sizeOf_spec]; omega)

theorem to_text_frame_aux : ∀ (k : Nat) (n : Node), sizeOf n ≤ k → ∀ s : Settings,
    Node.freeOfSuppressed s n = true → Node.to_text s n = Node.to_text defaultSettings n := by
  intro k
  induction k with
  | zero =>
    intro n hn
    exfalso
    cases n <;>
      simp only [Node.charset.sizeOf_spec, Node.comment.sizeOf_spec,
        Node.document.sizeOf_spec, Node.importRule.sizeOf_spec, Node.keyframes.sizeOf_spec,
        Node.media.sizeOf_spec, Node.rule.sizeOf_spec, Node.supports.sizeOf_spec] at hn <;>
      omega
  | succ k ih =>
    intro n hn s hf
    have hpt : Property.to_text s = Property.to_text defaultSettings := rfl
    have hkt : KeyFrame.to_text s = KeyFrame.to_text defaultSettings := rfl
    cases n with
    | charset c =>
      rw [Node.freeOfSuppressed] at hf
      simp only [Bool.not_eq_true'] at hf
      simp [Node.to_text, hf, defaultSettings]
    | comment c =>
      rw [Node.freeOfSuppressed] at hf
      simp only [Bool.not_eq_true'] at hf
      simp [Node.to_text, hf, defaultSettings]
    | importRule v => simp [Node.to_text]
    | rule sel props =>
      rw [Node.freeOfSuppressed] at hf
      simp only [Bool.not_eq_true'] at hf
      simp [Node.to_text, hf, defaultSettings, hpt]
    | keyframes vendor name frames =>
      simp [Node.to_text, hkt]
    | document vendor name rules =>
      rw [Node.freeOfSuppressed] at hf
      simp only [List.all_eq_true] at hf
      rw [to_text_document, to_text_document]
      have : rules.map (Node.to_text s) = rules.map (Node.to_text defaultSettings) := by
        apply List.map_congr_left
        intro r hr
        have hsz : sizeOf r ≤ k := by
          have h1 := List.sizeOf_lt_of_mem hr
          simp only [Node.document.sizeOf_spec] at hn
          omega
        exact ih r hsz s (hf ⟨r, hr⟩ (List.mem_attach rules ⟨r, hr⟩))
      rw [this]
    | media m rules =>
      rw [Node.freeOfSuppressed] at hf
      simp only [List.all_eq_true] at hf
      rw [to_text_media, to_text_media]
      have : rules.map (Node.to_text s) = rules.map (Node.to_text defaultSettings) := by
        apply List.map_congr_left
        intro r hr
        have hsz : sizeOf r ≤ k := by
          have h1 := List.sizeOf_lt_of_mem hr
          simp only [Node.media.sizeOf_spec] at hn
          omega
        exact ih r hsz s (hf ⟨r, hr⟩ (List.mem_attach rules ⟨r, hr⟩))
      rw [this]
    | supports sup rules =>
      rw [Node.freeOfSuppressed] at hf
      simp only [List.all_eq_true] at hf
      rw [to_text_supports, to_text_supports]
      have : rules.map (Node.to_text s) = rules.map (Node.to_text defaultSettings) := by
        apply List.map_congr_left
        intro r hr
        have hsz : sizeOf r ≤ k := by
          have h1 := List.sizeOf_lt_of_mem hr
          simp only [Node.supports.sizeOf_spec] at hn
          omega
        exact ih r hsz s (hf ⟨r, hr⟩ (List.mem_attach rules ⟨r, hr⟩))
      rw [this]

/-- C8 counterexample: a node that is not of the suppressed kind can
still render differently under a flag — a media query whose only child
is a comment renders differently with `ignore_comments` than with all
flags false, refuting "the rendered text of every node not matching
the suppressed kind is identical to its rendering with all flags
false". -/
theorem claim_C8_counterexample :
    Node.to_text ⟨false, true, false⟩ (.media "x" [.comment "c"]) ≠
      Node.to_text defaultSettings (.media "x" [.comment "c"]) := by
  have l1 : Node.to_text ⟨false, true, false⟩ (.media "x" [.comment "c"]) =
      "@media x \x7b\n" ++ "\n" ++ "\x7d\n" := by
    rw [to_text_media]
    simp +decide [Node.to_text, strJoin, indent_empty]
  have l2 : Node.to_text defaultSettings (.media "x" [.comment "c"]) =
      "@media x \x7b\n" ++ "    /*c*/\n" ++ "\x7d\n" := by
    rw [to_text_media]
    simp +decide [Node.to_text, strJoin, defaultSettings, indent, splitlinesList, joinWithNl,
      isLineBreakChar]
  rw [l1, l2]
  decide

/-- C8 (amended): each option suppresses exactly the nodes of its own
kind — under `ignore_comments` every `Comment` renders empty, under
`ignore_charset` every `Charset` renders empty, under
`ignore_empty_rules` every zero-declaration `Rule` renders empty — and
every node whose subtree contains no node of a suppressed kind renders
exactly as it does with all flags false. -/
theorem claim_C8_amended :
    (∀ (c : String) (s : Settings), s.ignore_comments = true →
      Node.to_text s (.comment c) = "") ∧
    (∀ (c : String) (s : Settings), s.ignore_charset = true →
      Node.to_text s (.charset c) = "") ∧
    (∀ (sel : String) (s : Settings), s.ignore_empty_rules = true →
      Node.to_text s (.rule sel []) = "") ∧
    (∀ (n : Node) (s : Settings), Node.freeOfSuppressed s n = true →
      Node.to_text s n = Node.to_text defaultSettings n) := by
  refine ⟨?_, ?_, ?_, ?_⟩
  · intro c s h
    simp [Node.to_text, h]
  · intro c s h
    simp [Node.to_text, h]
  · intro sel s h
    simp [Node.to_text, h]
  · intro n s hf
    exact to_text_frame_aux (sizeOf n) n (Nat.le_refl _) s hf

theorem claim_C8_witness :
    (⟨false, true, false⟩ : Settings).ignore_comments = true ∧
      Node.to_text ⟨false, true, false⟩ (.comment "hi") = "" :=
  ⟨rfl, claim_C8_amended.1 "hi" ⟨false, true, false⟩ rfl⟩

/-! ### Trailing newlines of rendered nodes -/

theorem to_text_empty_or_newline (s : Settings) (n : Node) :
    Node.to_text s n = "" ∨ (Node.to_text s n).data.getLast? = some '\n' := by
  have hend : ∀ (a : String) (e : List Char), e ≠ [] → e.getLast? = some '\n' →
      (a ++ (⟨e⟩ : String)).data.getLast? = some '\n' := by
    intro a e hne hl
    rw [String.data_append]
    rw [List.getLast?_append]
    show (e.getLast?.or _) = some '\n'
    rw [hl]
    rfl
  cases n with
  | charset c =>
    rcases hc : s.ignore_charset with hv | hv
    · right
      have : Node.to_text s (.charset c) = ("@charset " ++ c) ++ ⟨[';', '\n']⟩ := by
        simp [Node.to_text, hc]
      rw [this]
      exact hend _ _ (by simp) (by decide)
    · left
      simp [Node.to_text, hc]
  | comment c =>
    rcases hc : s.ignore_comments with hv | hv
    · right
      have : Node.to_text s (.comment c) = ("/*" ++ c) ++ ⟨['*', '/', '\n']⟩ := by
        simp [Node.to_text, hc]
      rw [this]
      exact hend _ _ (by simp) (by decide)
    · left
      simp [Node.to_text, hc]
  | importRule v =>
    right
    have : Node.to_text s (.importRule v) = ("@import " ++ v) ++ ⟨[';', '\n']⟩ := by
      simp [Node.to_text]
    rw [this]
    exact hend _ _ (by simp) (by decide)
  | rule sel props =>
    rcases hc : s.ignore_empty_rules && props.isEmpty with hv | hv
    · right
      have : Node.to_text s (.rule sel props) =
          (sel ++ " \x7b\n" ++ strJoin (props.map (Property.to_text s))) ++ ⟨['}', '\n']⟩ := by
        simp [Node.to_text, hc]
      rw [this]
      exact hend _ _ (by simp) (by decide)
    · left
      simp [Node.to_text, hc]
  | keyframes vendor name frames =>
    right
    have : Node.to_text s (.keyframes vendor name frames) =
        ("@" ++ vendor ++ "keyframes " ++ name ++ " \x7b\n" ++
          indent (strJoin (frames.map (KeyFrame.to_text s)))) ++ ⟨['}', '\n']⟩ := by
      simp [Node.to_text]
    rw [this]
    exact hend _ _ (by simp) (by decide)
  | document vendor name rules =>
    right
    have : Node.to_text s (.document vendor name rules) =
        ("@" ++ vendor ++ "document " ++ name ++ " \x7b\n" ++
          indent (strJoin (rules.map (Node.to_text s)))) ++ ⟨['}', '\n']⟩ := by
      rw [to_text_document]
    rw [this]
    exact hend _ _ (by simp) (by decide)
  | media m rules =>
    right
    have : Node.to_text s (.media m rules) =
        ("@media " ++ m ++ " \x7b\n" ++ indent (strJoin (rules.map (Node.to_text s)))) ++
          ⟨['}', '\n']⟩ := by
      rw [to_text_media]
    rw [this]
    exact hend _ _ (by simp) (by decide)
  | supports sup rules =>
    right
    have : Node.to_text s (.supports sup rules) =
        ("@supports " ++ sup ++ " \x7b\n" ++ indent (strJoin (rules.map (Node.to_text s)))) ++
          ⟨['}', '\n']⟩ := by
      rw [to_text_supports]
    rw [this]
    exact hend _ _ (by simp) (by decide)

theorem strJoin_empty_or_newline (l : List String)
    (h : ∀ t ∈ l, t = "" ∨ t.data.getLast? = some '\n') :
    strJoin l = "" ∨ (strJoin l).data.getLast? = some '\n' := by
  induction l with
  | nil => left; rfl
  | cons t ts ih =>
    have hts := ih (fun x hx => h x (by simp [hx]))
    rcases hts with he | hl
    · have : strJoin (t :: ts) = t := by
        rw [strJoin, he]
        apply String.ext
        rw [String.data_append]
        show t.data ++ [] = t.data
        exact List.append_nil t.data
      rw [this]
      exact h t (by simp)
    · right
      rw [strJoin, String.data_append, List.getLast?_append]
      rw [hl]
      rfl

/-- C9 counterexample: a successful invocation whose output is empty
does not terminate with a newline —
`format_css("a{}", ignore_empty_rules=true)` returns `""`, and the
empty string has no trailing newline — refuting "this output always
terminates with a newline after the final top-level node". -/
theorem claim_C9_counterexample :
    format_css ⟨0, "", "", [RawNode.rule ["a"] []]⟩ ⟨false, false, true⟩ = .ok "" ∧
      ¬ (("" : String).data.getLast? = some '\n') := by
  constructor
  · simp +decide [format_css, generic_to_node, Rule.from_dict, pySorted,
      List.insertionSort, List.orderedInsert, strLeR, strLe, listLe, joinCommaSpace,
      RELATION_RE_sub, relationSubList, tryRelation, pyIsSpace, List.dropWhile,
      Node.to_text, strJoin]
  · decide

/-- C9 (amended): on success `format_css` returns the concatenation of
each top-level node's rendered text in original document order; every
nonempty successful output terminates with a newline (each rendered
node text is empty or newline-terminated); when every top-level node
is suppressed the output is the empty string, as in
`format_css("a{}", ignore_empty_rules=true) = ""`. -/
theorem claim_C9_amended :
    (∀ (res : ParserResult) (s : Settings), res.returncode = 0 →
      format_css res s = .ok (strJoin ((res.sheet.map generic_to_node).map (Node.to_text s)))) ∧
    (∀ (res : ParserResult) (s : Settings) (t : String), format_css res s = .ok t →
      t = "" ∨ t.data.getLast? = some '\n') ∧
    format_css ⟨0, "", "", [RawNode.rule ["a"] []]⟩ ⟨false, false, true⟩ = .ok "" := by
  refine ⟨?_, ?_, claim_C9_counterexample.1⟩
  · intro res s h
    simp [format_css, h]
  · intro res s t h
    rw [format_css] at h
    split at h
    · exact absurd h (by simp)
    · simp only [Except.ok.injEq] at h
      subst h
      apply strJoin_empty_or_newline
      intro x hx
      simp only [List.mem_map] at hx
      obtain ⟨n, _, rfl⟩ := hx
      exact to_text_empty_or_newline s n

theorem claim_C9_witness :
    format_css ⟨0, "", "", []⟩ defaultSettings =
      .ok (strJoin ((([] : List RawNode).map generic_to_node).map
        (Node.to_text defaultSettings))) :=
  claim_C9_amended.1 ⟨0, "", "", []⟩ defaultSettings rfl

/-- C10: a container whose children's rendered texts concatenate to
the empty string still renders one blank line between its braces,
because indenting the empty string yields a single newline; this holds
for media queries, supports blocks, documents and keyframes. -/
theorem claim_C10 (s : Settings) :
    (∀ (m : String) (rules : List Node), strJoin (rules.map (Node.to_text s)) = "" →
      Node.to_text s (.media m rules) = "@media " ++ m ++ " \x7b\n\n\x7d\n") ∧
    (∀ (sup : String) (rules : List Node), strJoin (rules.map (Node.to_text s)) = "" →
      Node.to_text s (.supports sup rules) = "@supports " ++ sup ++ " \x7b\n\n\x7d\n") ∧
    (∀ (vendor name : String) (rules : List Node),
      strJoin (rules.map (Node.to_text s)) = "" →
      Node.to_text s (.document vendor name rules) =
        "@" ++ vendor ++ "document " ++ name ++ " \x7b\n\n\x7d\n") ∧
    (∀ (vendor name : String) (frames : List KeyFrame),
      strJoin (frames.map (KeyFrame.to_text s)) = "" →
      Node.to_text s (.keyframes vendor name frames) =
        "@" ++ vendor ++ "keyframes " ++ name ++ " \x7b\n\n\x7d\n") := by
  have hglue : ∀ x : String, x ++ " \x7b\n" ++ ("\n" : String) ++ "\x7d\n" = x ++ " \x7b\n\n\x7d\n" := by
    intro x
    apply String.ext
    simp only [String.data_append, List.append_assoc]
    have he : (" \x7b\n" : String).data ++ (("\n" : String).data ++ ("\x7d\n" : String).data) =
        (" \x7b\n\n\x7d\n" : String).data := by decide
    rw [he]
  refine ⟨?_, ?_, ?_, ?_⟩
  · intro m rules h
    rw [to_text_media, h, indent_empty]
    exact hglue ("@media " ++ m)
  · intro sup rules h
    rw [to_text_supports, h, indent_empty]
    exact hglue ("@supports " ++ sup)
  · intro vendor name rules h
    rw [to_text_document, h, indent_empty]
    exact hglue ("@" ++ vendor ++ "document " ++ name)
  · intro vendor name frames h
    rw [Node.to_text, h, indent_empty]
    exact hglue ("@" ++ vendor ++ "keyframes " ++ name)

theorem claim_C10_witness :
    strJoin (([] : List Node).map (Node.to_text defaultSettings)) = "" ∧
      Node.to_text defaultSettings (.media "print" []) = "@media " ++ "print" ++ " \x7b\n\n\x7d\n" :=
  ⟨rfl, (claim_C10 defaultSettings).1 "print" [] rfl⟩

end CssExplore
